import Mathlib

/-!
Verification of the spotlighting data-marking library (`index.js`,
class `DataMarkingViaSpotlighting`).

The JavaScript source is embedded shallowly:

* JS strings are `List Char` (abbreviated `Str`); `String.prototype.slice`
  becomes `List.take` / `List.drop` and `.length` becomes `List.length`.
* The tokenizer (js-tiktoken `cl100k_base`, an external collaborator) is an
  abstract pair of functions `encode` / `decode` collected in a `Tok` record.
* The draws of `node:crypto`'s `randomInt` are threaded explicitly through a
  `Draws` record; a value `randomInt(n)` is modelled as `draw % n`, and the
  comparison `randomInt(1e9) / 1e9 < p` is modelled exactly over `ℚ`.
* A thrown `Error` for an invalid marker type becomes `Except MarkErr`.
* `String.prototype.normalize('NFC')` is applied by the source only to
  strings of Private-Use-Area code points (U+E000 to U+F8FF); such strings
  have no canonical decompositions or compositions, so NFC is the identity
  on them and the call is modelled as the identity function `nfc`.
-/

namespace Spotlighting

/-- JS strings, modelled as lists of Unicode scalar values. -/
abbrev Str := List Char

/-- The tokenizer adapter: `encode(text) -> ids` and `decode(ids) -> text`.
The source instantiates it with js-tiktoken's `cl100k_base`. -/
structure Tok where
  encode : Str → List Nat
  decode : List Nat → Str

/-- The constructor-held configuration of `DataMarkingViaSpotlighting`:
`minK`, `maxK`, `defaultP`, `defaultMinGap`, `markerType`. -/
structure Cfg where
  minK : Nat
  maxK : Nat
  defaultP : ℚ
  defaultMinGap : Nat
  markerType : Str

/-- The default configuration `(7, 12, 0.5, 1, 'alphanumeric')`. -/
def cfgD : Cfg :=
  ⟨7, 12, 1/2, 1, "alphanumeric".toList⟩

/-- The random draws consumed by one call: the marker-length draw, the
marker-character draws, the per-eligible-point acceptance draws of the
probabilistic loop, and the fallback index draw. -/
structure Draws where
  kDraw : Nat
  charDraws : Nat → Nat
  us : Nat → Nat
  fb : Nat

/-- The all-zero draw record, used for concrete evaluations. -/
def dZero : Draws :=
  ⟨0, fun _ => 0, fun _ => 0, 0⟩

/-- The error thrown by `genDataMarker` on an invalid marker type. -/
inductive MarkErr where
  | configError
deriving DecidableEq

/-- The result object `{markedText, dataMarker}` (the `prompt` field is a
fixed template string of the marker and carries no algorithmic content). -/
structure MarkResult where
  markedText : Str
  dataMarker : Str
deriving DecidableEq

/-- The 62-character alphabet of `genDataMarkerAlphaNum`. -/
def alphaChars : Str :=
  "0123456789abcdefghijklmnopqrstuvwxyzABCDEFGHIJKLMNOPQRSTUVWXYZ".toList

/-- NFC normalization, the identity on Private-Use-Area strings (see the
file header). -/
def nfc (s : Str) : Str := s

/-- `genDataMarkerAlphaNum`: `k = minK + randomInt(maxK - minK + 1)`
characters drawn from `alphaChars`. -/
def genDataMarkerAlphaNum (cfg : Cfg) (d : Draws) : Str :=
  let k := cfg.minK + d.kDraw % (cfg.maxK - cfg.minK + 1)
  (List.range k).map fun i => alphaChars.getD (d.charDraws i % 62) '0'

/-- `genDataMarkerUniCode`: `k` code points drawn from the Private Use Area
U+E000 to U+F8FF (6400 code points), NFC-normalized. -/
def genDataMarkerUniCode (cfg : Cfg) (d : Draws) : Str :=
  let k := cfg.minK + d.kDraw % (cfg.maxK - cfg.minK + 1)
  nfc ((List.range k).map fun i => Char.ofNat (0xe000 + d.charDraws i % 6400))

/-- `markerType || this.markerType`: JS `||` falls through on `null`
(modelled as `none`) and on the falsy empty string. -/
def resolveMarkerType (cfg : Cfg) (mt : Option Str) : Str :=
  match mt with
  | none => cfg.markerType
  | some s => if s = [] then cfg.markerType else s

/-- `genDataMarker(markerType)`: dispatch on the resolved type string,
throwing on anything other than the two known alphabets. -/
def genDataMarker (cfg : Cfg) (mt : Option Str) (d : Draws) : Except MarkErr Str :=
  let t := resolveMarkerType cfg mt
  if t = "unicode".toList then Except.ok (genDataMarkerUniCode cfg d)
  else if t = "alphanumeric".toList then Except.ok (genDataMarkerAlphaNum cfg d)
  else Except.error MarkErr.configError

/-- The character class of the JS regex `\s`. -/
def isWsChar (c : Char) : Bool :=
  let n := c.toNat
  (n == 0x20) || (n == 0x09) || (n == 0x0a) || (n == 0x0b) || (n == 0x0c) ||
  (n == 0x0d) || (n == 0xa0) || (n == 0x1680) ||
  (decide (0x2000 ≤ n) && decide (n ≤ 0x200a)) ||
  (n == 0x2028) || (n == 0x2029) || (n == 0x202f) || (n == 0x205f) ||
  (n == 0x3000) || (n == 0xfeff)

/-- `text.replace(/\s/g, dataMarker)`: every whitespace character is
replaced by the marker. -/
def replaceWs (m : Str) : Str → Str
  | [] => []
  | c :: cs => (if isWsChar c then m else [c]) ++ replaceWs m cs

/-- Options of `markData`: `{sandwich = true, markerType = null}`. -/
structure MarkOptions where
  sandwich : Bool
  markerType : Option Str

/-- `markData(text, options)`. -/
def markData (cfg : Cfg) (text : Str) (o : MarkOptions) (d : Draws) :
    Except MarkErr MarkResult :=
  match genDataMarker cfg o.markerType d with
  | Except.error e => Except.error e
  | Except.ok m =>
    let inner := replaceWs m text
    Except.ok ⟨if o.sandwich then m ++ inner ++ m else inner, m⟩

/-- Options of `randomlyMarkData`:
`{p = defaultP, minGap = defaultMinGap, sandwich = true, markerType = null}`. -/
structure RandOptions where
  p : ℚ
  minGap : Nat
  sandwich : Bool
  markerType : Option Str

/-- The safe-insertion-point check for one index `i`: decoding `ids[0:i]`
and re-encoding it must reproduce `ids[0:i]` exactly (same length, same
values in order). -/
def roundTrips (tok : Tok) (ids : List Nat) (i : Nat) : Bool :=
  tok.encode (tok.decode (ids.take i)) == ids.take i

/-- `safeInsertionPoints`: the indices `i ∈ [1, ids.length)` passing the
round-trip check, in ascending order. -/
def safePoints (tok : Tok) (ids : List Nat) : List Nat :=
  (List.range ids.length).filter fun i => decide (1 ≤ i) && roundTrips tok ids i

/-- One acceptance test `randomInt(1e9) / 1e9 < p`, over exact rationals. -/
def accept (p : ℚ) (u : Nat) : Bool :=
  decide ((u % 1000000000 : ℚ) / 1000000000 < p)

/-- The probabilistic placement loop. `gap` is `gapSinceLastMarker` and `j`
counts the acceptance draws consumed so far (a draw is made only when
`gap >= minGap`, matching the JS short-circuit `&&`). -/
def selectLoop (p : ℚ) (g : Nat) (us : Nat → Nat) : List Nat → Nat → Nat → List Nat
  | [], _, _ => []
  | pt :: rest, gap, j =>
    if g ≤ gap then
      if accept p (us j) then pt :: selectLoop p g us rest 0 (j + 1)
      else selectLoop p g us rest (gap + 1) (j + 1)
    else selectLoop p g us rest (gap + 1) j

/-- The index chosen by the guaranteed-insertion fallback:
`min(max(minGap,1), floor(L/2)) + randomInt(L - minIdx)` into the safe-point
list of length `L`. -/
def fallbackIdx (g : Nat) (L : Nat) (r : Nat) : Nat :=
  let minIdx := min (max g 1) (L / 2)
  minIdx + r % (L - minIdx)

/-- The final ascending list of insertion points: the loop's selection, or
the single fallback point when the loop selected nothing and at least one
safe point exists.  (The source stores the points in a `Set` and sorts
them; the loop already emits them in ascending order.) -/
def insertionPts (tok : Tok) (ids : List Nat) (p : ℚ) (g : Nat)
    (us : Nat → Nat) (fb : Nat) : List Nat :=
  let sp := safePoints tok ids
  let sel := selectLoop p g us sp 0 0
  if sel = [] ∧ sp ≠ [] then [sp.getD (fallbackIdx g sp.length fb) 0] else sel

/-- The result-assembly loop: for each point push `decode(ids[lastIdx:pt])`
and the marker, then push the trailing `decode(ids[lastIdx:])` when
`lastIdx < ids.length`. -/
def assemble (tok : Tok) (ids : List Nat) (m : Str) : List Nat → Nat → Str
  | [], lastIdx => if lastIdx < ids.length then tok.decode (ids.drop lastIdx) else []
  | pt :: rest, lastIdx =>
    tok.decode ((ids.drop lastIdx).take (pt - lastIdx)) ++ m ++
      assemble tok ids m rest pt

/-- `randomlyMarkData(text, options)`. -/
def randomlyMarkData (cfg : Cfg) (tok : Tok) (text : Str) (o : RandOptions)
    (d : Draws) : Except MarkErr MarkResult :=
  let ids := tok.encode text
  match genDataMarker cfg o.markerType d with
  | Except.error e => Except.error e
  | Except.ok m =>
    if ids.length = 1 ∧ 8 ≤ text.length then
      let half := text.length / 2
      Except.ok ⟨if o.sandwich then
          m ++ text.take half ++ m ++ text.drop half ++ m
        else text.take half ++ m ++ text.drop half, m⟩
    else
      let pts := insertionPts tok ids o.p o.minGap d.us d.fb
      let inner := assemble tok ids m pts 0
      Except.ok ⟨if o.sandwich then m ++ inner ++ m else inner, m⟩

deriving instance DecidableEq for Except

/-- `exceptOk e` is `true` iff `e` is a success value. -/
def exceptOk {α : Type} : Except MarkErr α → Bool
  | Except.ok _ => true
  | Except.error _ => false

/-- Interleave: `interleave m [s₀, …, sₖ] = s₀ ++ m ++ s₁ ++ m ++ … ++ sₖ`.
Each internal separator is one occurrence of the single string `m`. -/
def interleave (m : Str) : List Str → Str
  | [] => []
  | [s] => s
  | s :: rest => s ++ m ++ interleave m rest

/-- The decoded spans between consecutive insertion points (the non-marker
segments the assembly loop pushes), including the trailing span. -/
def slicesFrom (tok : Tok) (ids : List Nat) : List Nat → Nat → List Str
  | [], lastIdx => [if lastIdx < ids.length then tok.decode (ids.drop lastIdx) else []]
  | pt :: rest, lastIdx =>
    tok.decode ((ids.drop lastIdx).take (pt - lastIdx)) :: slicesFrom tok ids rest pt

/-- The token counts of the segments *before* each marker: for insertion
points `p₁ < … < pₖ` these are `p₁ - 0, p₂ - p₁, …, pₖ - pₖ₋₁` (the count
of the trailing segment after the last marker is not listed). -/
def gapsOf : Nat → List Nat → List Nat
  | _, [] => []
  | last, pt :: rest => (pt - last) :: gapsOf pt rest

/-- Spacing invariant of the placement loop: starting from lower bound `b`
with `gap` already accumulated, the first selected point is at least
`b + (g - gap)` and consecutive selected points are more than `g` apart. -/
def spacedFrom (g : Nat) : Nat → Nat → List Nat → Prop
  | _, _, [] => True
  | b, gap, q :: qs => b + (g - gap) ≤ q ∧ spacedFrom g (q + 1) 0 qs

/-- The whitespace-separated pieces of a string: `replaceWs` replaces each
whitespace character by the marker, so the marked text is these pieces
interleaved with marker copies. -/
def wsSegs : Str → List Str
  | [] => [[]]
  | c :: cs =>
    if isWsChar c then [] :: wsSegs cs
    else
      match wsSegs cs with
      | s :: rest => (c :: s) :: rest
      | [] => [[c]]

/-- The non-marker segments of a `markData` result (sandwich mode adds an
empty leading and trailing segment, i.e. a marker at both boundaries). -/
def markSegs (text : Str) (o : MarkOptions) : List Str :=
  if o.sandwich then [] :: wsSegs text ++ [[]] else wsSegs text

/-- The non-marker segments of a `randomlyMarkData` result, computed from
the input, the options and the draws only — independently of the marker. -/
def randSegs (tok : Tok) (text : Str) (o : RandOptions) (d : Draws) : List Str :=
  let ids := tok.encode text
  if ids.length = 1 ∧ 8 ≤ text.length then
    let half := text.length / 2
    if o.sandwich then [[], text.take half, text.drop half, []]
    else [text.take half, text.drop half]
  else
    let pts := insertionPts tok ids o.p o.minGap d.us d.fb
    if o.sandwich then [] :: slicesFrom tok ids pts 0 ++ [[]]
    else slicesFrom tok ids pts 0

/-! ### Concrete tokenizers for witnesses and counterexamples

`tokW`, `tokC2`, `tok6` decode by concatenating a per-token string, so
their `decode` is a monoid homomorphism like the byte-level BPE decoder of
`cl100k_base`.  `tokC1` is a tokenizer, allowed by the specification's own
tokenizer-adapter contract, for which no token-boundary prefix of the text
round-trips. -/

/-- A tokenizer with a two-token text `ab` whose only internal boundary
fails the round-trip check: `decode([0]) = q` but `encode(q) = [5]`. -/
def tokC1 : Tok :=
  ⟨fun s => if s = "ab".toList then [0, 1] else if s = "q".toList then [5] else [9],
   fun l => if l = [0, 1] then "ab".toList else if l = [0] then "q".toList
     else "z".toList⟩

/-- Per-token decoding table of `tokW`. -/
def decW (i : Nat) : Str :=
  if i = 0 then "c".toList else if i = 1 then "d".toList else []

/-- A two-token tokenizer for `cd` whose boundary 1 is safe. -/
def tokW : Tok :=
  ⟨fun s => if s = "cd".toList then [0, 1] else if s = "c".toList then [0]
     else if s = "d".toList then [1] else [],
   fun l => l.flatMap decW⟩

/-- Per-token decoding table of `tokC2`. -/
def decC2 (i : Nat) : Str :=
  if i = 0 then "a".toList else if i = 1 then "b".toList
  else if i = 2 then "c".toList else []

/-- A three-token tokenizer for `abc` whose boundaries 1 and 2 are both
safe. -/
def tokC2 : Tok :=
  ⟨fun s => if s = "abc".toList then [0, 1, 2] else if s = "a".toList then [0]
     else if s = "ab".toList then [0, 1] else [],
   fun l => l.flatMap decC2⟩

/-- Per-token decoding table of `tok6`. -/
def dec6 (i : Nat) : Str :=
  if i = 3 then "hi".toList else []

/-- A tokenizer encoding the short text `hi` as a single token. -/
def tok6 : Tok :=
  ⟨fun s => if s = "hi".toList then [3] else [], fun l => l.flatMap dec6⟩

/-- A tokenizer for single-token inputs (the decode side is never reached
by the long-single-token branch). -/
def tokOne : Tok :=
  ⟨fun _ => [0], fun _ => []⟩

/-- A tokenizer producing no tokens at all. -/
def tokE : Tok :=
  ⟨fun _ => [], fun _ => []⟩

/-- The zero draw function. -/
def usZ : Nat → Nat := fun _ => 0

/-- Options used by several concrete runs: `p = 1/2`, `minGap = 1`, no
sandwich, default marker type. -/
def o5 : RandOptions := ⟨1/2, 1, false, none⟩

/-- Options of the guaranteed-marking runs: `p = 0`, `minGap = 5`, no
sandwich (with `p = 0` the probabilistic loop accepts nothing, so only the
fallback can insert). -/
def oW : RandOptions := ⟨0, 5, false, none⟩

/-- Result of the concrete C5 run. -/
def rW5 : MarkResult := ⟨"abcd0000000efgh".toList, "0000000".toList⟩

/-- Result of the concrete `tokW` fallback run: one marker inserted at the
only safe boundary of `cd`. -/
def rW1 : MarkResult := ⟨"c0000000d".toList, "0000000".toList⟩

/-- Sandwiched `markData` options with the default marker type. -/
def oT : MarkOptions := ⟨true, none⟩

/-- Result of the concrete sandwiched `markData` run on `a b`. -/
def rM : MarkResult := ⟨"0000000a0000000b0000000".toList, "0000000".toList⟩

/-! ### Base64 transcoding of the UTF-8 byte representation

`base64EncodeData` delegates to Node's
`Buffer.from(text, 'utf-8').toString('base64')`: the text's standard UTF-8
byte sequence rendered in standard Base64 with `=` padding.  Both standard
codecs are modelled below; bytes are `Nat` values below 256. -/

/-- The UTF-8 encoding of one Unicode scalar value (1 to 4 bytes). -/
def utf8EncodeChar (c : Char) : List Nat :=
  let n := c.toNat
  if n < 0x80 then [n]
  else if n < 0x800 then [0xc0 + n / 64, 0x80 + n % 64]
  else if n < 0x10000 then
    [0xe0 + n / 4096, 0x80 + n / 64 % 64, 0x80 + n % 64]
  else
    [0xf0 + n / 262144, 0x80 + n / 4096 % 64, 0x80 + n / 64 % 64, 0x80 + n % 64]

/-- The UTF-8 byte sequence of a string. -/
def utf8Encode : Str → List Nat
  | [] => []
  | c :: cs => utf8EncodeChar c ++ utf8Encode cs

/-- UTF-8 decoding: the lead byte selects the sequence length; malformed
input is cut short. -/
def utf8Decode : List Nat → Str
  | [] => []
  | b :: bs =>
    if b < 0x80 then Char.ofNat b :: utf8Decode bs
    else if b < 0xe0 then
      if bs.length < 1 then []
      else Char.ofNat ((b - 0xc0) * 64 + (bs.headD 0 - 0x80)) ::
        utf8Decode (bs.drop 1)
    else if b < 0xf0 then
      if bs.length < 2 then []
      else Char.ofNat ((b - 0xe0) * 4096 + (bs.headD 0 - 0x80) * 64 +
        ((bs.drop 1).headD 0 - 0x80)) :: utf8Decode (bs.drop 2)
    else
      if bs.length < 3 then []
      else Char.ofNat ((b - 0xf0) * 262144 + (bs.headD 0 - 0x80) * 4096 +
        ((bs.drop 1).headD 0 - 0x80) * 64 + ((bs.drop 2).headD 0 - 0x80)) ::
        utf8Decode (bs.drop 3)
termination_by l => l.length
decreasing_by
  all_goals simp only [List.length_cons, List.length_drop]
  all_goals omega

/-- The 64-character Base64 alphabet. -/
def b64Alphabet : Str :=
  "ABCDEFGHIJKLMNOPQRSTUVWXYZabcdefghijklmnopqrstuvwxyz0123456789+/".toList

/-- The character of one sextet value. -/
def b64Char (n : Nat) : Char := b64Alphabet.getD n '='

/-- The sextet value of one alphabet character. -/
def b64Inv (c : Char) : Nat := b64Alphabet.indexOf c

/-- Standard Base64 encoding of a byte sequence, with `=` padding. -/
def base64Encode : List Nat → Str
  | [] => []
  | [b0] => [b64Char (b0 / 4), b64Char (b0 % 4 * 16), '=', '=']
  | [b0, b1] =>
    [b64Char (b0 / 4), b64Char (b0 % 4 * 16 + b1 / 16), b64Char (b1 % 16 * 4), '=']
  | b0 :: b1 :: b2 :: rest =>
    b64Char (b0 / 4) :: b64Char (b0 % 4 * 16 + b1 / 16) ::
      b64Char (b1 % 16 * 4 + b2 / 64) :: b64Char (b2 % 64) :: base64Encode rest

/-- Standard Base64 decoding, honouring `=` padding. -/
def base64Decode : Str → List Nat
  | c0 :: c1 :: c2 :: c3 :: rest =>
    if c2 = '=' then [b64Inv c0 * 4 + b64Inv c1 / 16]
    else if c3 = '=' then
      [b64Inv c0 * 4 + b64Inv c1 / 16, b64Inv c1 % 16 * 16 + b64Inv c2 / 4]
    else
      (b64Inv c0 * 4 + b64Inv c1 / 16) ::
        (b64Inv c1 % 16 * 16 + b64Inv c2 / 4) ::
        (b64Inv c2 % 4 * 64 + b64Inv c3) :: base64Decode rest
  | _ => []

/-- The result object of `base64EncodeData` (its `prompt` field is a fixed
template string with no algorithmic content). -/
structure B64Result where
  markedText : Str

/-- `base64EncodeData(text)`. -/
def base64EncodeData (text : Str) : B64Result :=
  ⟨base64Encode (utf8Encode text)⟩

/-! ### General lemmas -/

/-- A successfully generated marker has at least `minK` characters. -/
theorem genDataMarker_minK (cfg : Cfg) (mt : Option Str) (d : Draws) (m : Str)
    (h : genDataMarker cfg mt d = Except.ok m) : cfg.minK ≤ m.length := by
  unfold genDataMarker at h
  dsimp only at h
  split at h
  · simp only [Except.ok.injEq] at h
    subst h
    simp [genDataMarkerUniCode, nfc]
  · split at h
    · simp only [Except.ok.injEq] at h
      subst h
      simp [genDataMarkerAlphaNum]
    · cases h
  -- the error branch is impossible
  -- (handled by `split at h` producing only reachable goals)

/-- With a single token, there are no candidate insertion points at all. -/
theorem safePoints_single (tok : Tok) (ids : List Nat) (h1 : ids.length = 1) :
    safePoints tok ids = [] := by
  simp [safePoints, h1, List.range_succ]

/-- With no tokens, there are no candidate insertion points. -/
theorem safePoints_empty (tok : Tok) (ids : List Nat) (h0 : ids.length = 0) :
    safePoints tok ids = [] := by
  simp [safePoints, h0]

/-! ### C5: long single-token rule -/

/-- C5.  For a text encoding to exactly one token with character length at
least 8 and any `p` and `minGap`, the non-sandwiched `randomlyMarkData`
result is the text split at character index `floor(length/2)` with the
marker inserted there. -/
theorem long_single_token_rule (cfg : Cfg) (tok : Tok) (T : Str)
    (o : RandOptions) (d : Draws) (r : MarkResult)
    (h1 : (tok.encode T).length = 1) (h8 : 8 ≤ T.length)
    (hs : o.sandwich = false)
    (hr : randomlyMarkData cfg tok T o d = Except.ok r) :
    r.markedText = T.take (T.length / 2) ++ r.dataMarker ++ T.drop (T.length / 2) := by
  unfold randomlyMarkData at hr
  cases hgen : genDataMarker cfg o.markerType d with
  | error e => rw [hgen] at hr; cases hr
  | ok m =>
    rw [hgen] at hr
    dsimp only at hr
    rw [if_pos ⟨h1, h8⟩, hs] at hr
    simp only [Bool.false_eq_true, if_false, Except.ok.injEq] at hr
    subst hr
    rfl

/-- C5 witness: a concrete single-token run of `randomlyMarkData`. -/
theorem long_single_token_rule_witness :
    (tokOne.encode "abcdefgh".toList).length = 1 ∧
    8 ≤ "abcdefgh".toList.length ∧
    rW5.markedText = "abcdefgh".toList.take ("abcdefgh".toList.length / 2) ++
      rW5.dataMarker ++ "abcdefgh".toList.drop ("abcdefgh".toList.length / 2) :=
  ⟨by decide, by decide,
   long_single_token_rule cfgD tokOne "abcdefgh".toList o5 dZero rW5
     (by decide) (by decide) (by decide) (by decide)⟩

/-! ### C6: short single-token rule -/

/-- C6.  For a text encoding to exactly one token with character length
less than 8, assuming the tokenizer round-trips the text, the
non-sandwiched `randomlyMarkData` result is the text unchanged. -/
theorem short_single_token_rule (cfg : Cfg) (tok : Tok) (T : Str)
    (o : RandOptions) (d : Draws) (r : MarkResult)
    (h1 : (tok.encode T).length = 1) (h8 : T.length < 8)
    (hrt : tok.decode (tok.encode T) = T)
    (hs : o.sandwich = false)
    (hr : randomlyMarkData cfg tok T o d = Except.ok r) :
    r.markedText = T := by
  unfold randomlyMarkData at hr
  cases hgen : genDataMarker cfg o.markerType d with
  | error e => rw [hgen] at hr; cases hr
  | ok m =>
    rw [hgen] at hr
    dsimp only at hr
    rw [if_neg (by omega)] at hr
    rw [insertionPts, safePoints_single tok (tok.encode T) h1] at hr
    simp only [selectLoop, eq_self_iff_true, ne_eq, not_true_eq_false,
      and_false, if_false] at hr
    rw [hs] at hr
    simp only [Bool.false_eq_true, if_false, Except.ok.injEq] at hr
    subst hr
    show assemble tok (tok.encode T) m [] 0 = T
    rw [assemble, if_pos (by omega), List.drop_zero, hrt]

/-- C6 witness: a concrete short single-token run. -/
theorem short_single_token_rule_witness :
    (tok6.encode "hi".toList).length = 1 ∧ "hi".toList.length < 8 ∧
    (⟨"hi".toList, "0000000".toList⟩ : MarkResult).markedText = "hi".toList :=
  ⟨by decide, by decide,
   short_single_token_rule cfgD tok6 "hi".toList o5 dZero
     ⟨"hi".toList, "0000000".toList⟩
     (by decide) (by decide) (by decide) (by decide) (by decide)⟩

/-! ### C8: empty input -/

/-- C8.  For input whose tokenization is empty, `randomlyMarkData` returns
`marker ++ marker` with sandwich enabled and the empty string with sandwich
disabled: no internal marker is ever inserted. -/
theorem empty_input_rule (cfg : Cfg) (tok : Tok) (T : Str)
    (o : RandOptions) (d : Draws) (r : MarkResult)
    (h0 : (tok.encode T).length = 0)
    (hr : randomlyMarkData cfg tok T o d = Except.ok r) :
    r.markedText = if o.sandwich then r.dataMarker ++ r.dataMarker else [] := by
  unfold randomlyMarkData at hr
  cases hgen : genDataMarker cfg o.markerType d with
  | error e => rw [hgen] at hr; cases hr
  | ok m =>
    rw [hgen] at hr
    dsimp only at hr
    rw [if_neg (by omega)] at hr
    rw [insertionPts, safePoints_empty tok (tok.encode T) h0] at hr
    simp only [selectLoop, eq_self_iff_true, ne_eq, not_true_eq_false,
      and_false, if_false] at hr
    simp only [Except.ok.injEq] at hr
    subst hr
    have hi : assemble tok (tok.encode T) m [] 0 = [] := by
      rw [assemble, if_neg (by omega)]
    cases hsw : o.sandwich <;> simp [hsw, hi]

/-- C8 witness: concrete empty-input runs, sandwiched and not. -/
theorem empty_input_rule_witness :
    tokE.encode [] = [] ∧
    (⟨"00000000000000".toList, "0000000".toList⟩ : MarkResult).markedText =
      (if (⟨1/2, 1, true, none⟩ : RandOptions).sandwich then
        (⟨"00000000000000".toList, "0000000".toList⟩ : MarkResult).dataMarker ++
        (⟨"00000000000000".toList, "0000000".toList⟩ : MarkResult).dataMarker
      else []) ∧
    (⟨[], "0000000".toList⟩ : MarkResult).markedText =
      (if o5.sandwich then
        (⟨[], "0000000".toList⟩ : MarkResult).dataMarker ++
        (⟨[], "0000000".toList⟩ : MarkResult).dataMarker
      else []) :=
  ⟨by decide,
   empty_input_rule cfgD tokE [] ⟨1/2, 1, true, none⟩ dZero
     ⟨"00000000000000".toList, "0000000".toList⟩ (by decide) (by decide),
   empty_input_rule cfgD tokE [] o5 dZero ⟨[], "0000000".toList⟩
     (by decide) (by decide)⟩

/-! ### C9: configuration errors -/

/-- C9.  `genDataMarker` fails with `configError` exactly when the resolved
marker type is neither of the two known alphabets; `markData` and
`randomlyMarkData` succeed exactly when their inner `genDataMarker` call
does, so an invalid type surfaces immediately (no marking work can return)
and a valid type never raises the error. -/
theorem configError_policy (cfg : Cfg) (d : Draws) :
    (∀ mt, genDataMarker cfg mt d = Except.error MarkErr.configError ↔
      ¬ (resolveMarkerType cfg mt = "alphanumeric".toList ∨
         resolveMarkerType cfg mt = "unicode".toList)) ∧
    (∀ tok T o, exceptOk (randomlyMarkData cfg tok T o d) =
      exceptOk (genDataMarker cfg o.markerType d)) ∧
    (∀ T o, exceptOk (markData cfg T o d) =
      exceptOk (genDataMarker cfg o.markerType d)) := by
  refine ⟨fun mt => ?_, fun tok T o => ?_, fun T o => ?_⟩
  · unfold genDataMarker
    dsimp only
    split
    next h => simp [h]
    next h =>
      split
      next h2 => simp [h2]
      next h2 =>
        simp only [not_or]
        refine iff_of_true (by trivial) ⟨?_, ?_⟩
        · simpa using h2
        · simpa using h
  · unfold randomlyMarkData
    dsimp only
    cases hg : genDataMarker cfg o.markerType d with
    | error e => rfl
    | ok m =>
      dsimp only
      split
      · rfl
      · rfl
  · unfold markData
    cases hg : genDataMarker cfg o.markerType d with
    | error e => rfl
    | ok m => rfl

/-! ### Structure of the assembled output -/

/-- A concatenative decoder maps the empty id list to the empty string. -/
theorem decode_nil (tok : Tok)
    (hdec : ∀ a b, tok.decode (a ++ b) = tok.decode a ++ tok.decode b) :
    tok.decode [] = [] := by
  have h := hdec [] []
  simp only [List.append_nil] at h
  have := congrArg List.length h
  simp only [List.length_append] at this
  exact List.length_eq_zero.mp (by omega)

/-- Appending the trailing part after a point recovers the whole rest. -/
theorem slice_decomp (ids : List Nat) (lastIdx pt : Nat) (h : lastIdx ≤ pt) :
    (ids.drop lastIdx).take (pt - lastIdx) ++ ids.drop pt = ids.drop lastIdx := by
  conv_rhs => rw [← List.take_append_drop (pt - lastIdx) (ids.drop lastIdx)]
  rw [List.drop_drop]
  congr 2
  omega

/-- Length of the assembled output: the decoded remainder plus one marker
copy per insertion point. -/
theorem assemble_length (tok : Tok) (ids : List Nat) (m : Str)
    (hdec : ∀ a b, tok.decode (a ++ b) = tok.decode a ++ tok.decode b) :
    ∀ (pts : List Nat) (lastIdx : Nat), (lastIdx :: pts).Pairwise (· ≤ ·) →
      (assemble tok ids m pts lastIdx).length =
        (tok.decode (ids.drop lastIdx)).length + pts.length * m.length := by
  intro pts
  induction pts with
  | nil =>
    intro lastIdx _
    rw [assemble]
    split
    · simp
    · next hge =>
      rw [List.drop_eq_nil_of_le (by omega)]
      simp [decode_nil tok hdec]
  | cons pt rest ih =>
    intro lastIdx hpw
    rw [List.pairwise_cons] at hpw
    obtain ⟨hle, hpw⟩ := hpw
    rw [assemble]
    have hdc : (tok.decode (ids.drop lastIdx)).length =
        (tok.decode ((ids.drop lastIdx).take (pt - lastIdx))).length +
        (tok.decode (ids.drop pt)).length := by
      conv_lhs =>
        rw [← slice_decomp ids lastIdx pt (hle pt (by simp)), hdec]
      simp
    simp only [List.length_append, List.length_cons]
    rw [ih pt hpw, hdc]
    ring

/-- The list of decoded spans is never empty. -/
theorem slicesFrom_ne_nil (tok : Tok) (ids : List Nat) (pts : List Nat)
    (lastIdx : Nat) : slicesFrom tok ids pts lastIdx ≠ [] := by
  cases pts <;> simp [slicesFrom]

/-- Interleaving over a cons with a nonempty tail. -/
theorem interleave_cons (m : Str) (s : Str) (l : List Str) (h : l ≠ []) :
    interleave m (s :: l) = s ++ m ++ interleave m l := by
  cases l with
  | nil => exact absurd rfl h
  | cons t ts => rfl

/-- The assembly loop produces exactly the decoded spans interleaved with
single copies of the marker. -/
theorem assemble_eq_interleave (tok : Tok) (ids : List Nat) (m : Str) :
    ∀ (pts : List Nat) (lastIdx : Nat),
      assemble tok ids m pts lastIdx =
        interleave m (slicesFrom tok ids pts lastIdx) := by
  intro pts
  induction pts with
  | nil => intro lastIdx; rfl
  | cons pt rest ih =>
    intro lastIdx
    rw [assemble, slicesFrom,
      interleave_cons m _ _ (slicesFrom_ne_nil tok ids rest pt), ih pt]

/-- Joining the decoded spans recovers the decoded remainder. -/
theorem slicesFrom_join (tok : Tok) (ids : List Nat)
    (hdec : ∀ a b, tok.decode (a ++ b) = tok.decode a ++ tok.decode b) :
    ∀ (pts : List Nat) (lastIdx : Nat), (lastIdx :: pts).Pairwise (· ≤ ·) →
      (slicesFrom tok ids pts lastIdx).flatten = tok.decode (ids.drop lastIdx) := by
  intro pts
  induction pts with
  | nil =>
    intro lastIdx _
    rw [slicesFrom]
    split
    · simp
    · next hge =>
      rw [List.drop_eq_nil_of_le (by omega)]
      simp [decode_nil tok hdec]
  | cons pt rest ih =>
    intro lastIdx hpw
    rw [List.pairwise_cons] at hpw
    obtain ⟨hle, hpw⟩ := hpw
    rw [slicesFrom, List.flatten_cons]
    rw [ih pt hpw, ← hdec, slice_decomp ids lastIdx pt (hle pt (by simp))]

/-- Appending an empty final segment appends one marker copy. -/
theorem interleave_append_nil (m : Str) :
    ∀ (l : List Str), l ≠ [] → interleave m (l ++ [[]]) = interleave m l ++ m := by
  intro l
  induction l with
  | nil => intro h; exact absurd rfl h
  | cons s rest ih =>
    intro _
    cases rest with
    | nil => simp [interleave]
    | cons t ts =>
      rw [List.cons_append,
        interleave_cons m s ((t :: ts) ++ [[]]) (by simp),
        interleave_cons m s (t :: ts) (by simp), ih (by simp)]
      simp [List.append_assoc]

/-- Wrapping in sandwich mode is interleaving with empty boundary
segments. -/
theorem interleave_sandwich (m : Str) (l : List Str) (h : l ≠ []) :
    interleave m ([] :: l ++ [[]]) = m ++ interleave m l ++ m := by
  rw [List.cons_append,
    interleave_cons m [] (l ++ [[]]) (by cases l <;> simp),
    interleave_append_nil m l h]
  simp [List.append_assoc]

/-! ### Structure of the selected insertion points -/

/-- The probabilistic loop selects a sublist of the candidate points. -/
theorem selectLoop_sublist (p : ℚ) (g : Nat) (us : Nat → Nat) :
    ∀ (pts : List Nat) (gap j : Nat), (selectLoop p g us pts gap j).Sublist pts := by
  intro pts
  induction pts with
  | nil => intro gap j; exact List.Sublist.refl []
  | cons pt rest ih =>
    intro gap j
    rw [selectLoop]
    split
    · split
      · exact List.Sublist.cons₂ pt (ih 0 (j + 1))
      · exact List.Sublist.cons pt (ih (gap + 1) (j + 1))
    · exact List.Sublist.cons pt (ih (gap + 1) j)

/-- If the counter cannot reach `minGap` before the points run out, the
loop selects nothing. -/
theorem selectLoop_nil_of_short (p : ℚ) (g : Nat) (us : Nat → Nat) :
    ∀ (pts : List Nat) (gap j : Nat), pts.length + gap ≤ g →
      selectLoop p g us pts gap j = [] := by
  intro pts
  induction pts with
  | nil => intro gap j _; rfl
  | cons pt rest ih =>
    intro gap j h
    simp only [List.length_cons] at h
    rw [selectLoop, if_neg (by omega)]
    exact ih (gap + 1) j (by omega)

/-- The safe points are strictly increasing. -/
theorem safePoints_pairwise (tok : Tok) (ids : List Nat) :
    (safePoints tok ids).Pairwise (· < ·) :=
  (List.pairwise_lt_range ids.length).filter _

/-- Every safe point is a positive index. -/
theorem safePoints_pos (tok : Tok) (ids : List Nat) :
    ∀ i ∈ safePoints tok ids, 1 ≤ i := by
  intro i hi
  rw [safePoints, List.mem_filter] at hi
  have := hi.2
  simp only [Bool.and_eq_true, decide_eq_true_eq] at this
  exact this.1

/-- The fallback index is always within the safe-point list. -/
theorem fallbackIdx_lt (g L r : Nat) (hL : 0 < L) : fallbackIdx g L r < L := by
  rw [fallbackIdx]
  have hmin : min (max g 1) (L / 2) < L := by
    have := Nat.div_le_self L 2
    have h2 : L / 2 < L := Nat.div_lt_self hL (by omega)
    omega
  have := Nat.mod_lt r (show 0 < L - min (max g 1) (L / 2) by omega)
  omega

/-- The final insertion points are strictly increasing. -/
theorem insertionPts_pairwise (tok : Tok) (ids : List Nat) (p : ℚ) (g : Nat)
    (us : Nat → Nat) (fb : Nat) :
    (insertionPts tok ids p g us fb).Pairwise (· < ·) := by
  rw [insertionPts]
  split
  · exact List.pairwise_singleton _ _
  · exact (safePoints_pairwise tok ids).sublist (selectLoop_sublist p g us _ 0 0)

/-- Every final insertion point is a positive index. -/
theorem insertionPts_pos (tok : Tok) (ids : List Nat) (p : ℚ) (g : Nat)
    (us : Nat → Nat) (fb : Nat) :
    ∀ i ∈ insertionPts tok ids p g us fb, 1 ≤ i := by
  intro i hi
  rw [insertionPts] at hi
  split at hi
  · next hc =>
    simp only [List.mem_singleton] at hi
    subst hi
    have hlt := fallbackIdx_lt g (safePoints tok ids).length fb
      (List.length_pos.mpr hc.2)
    rw [List.getD_eq_getElem _ _ hlt]
    exact safePoints_pos tok ids _ (List.getElem_mem hlt)
  · exact safePoints_pos tok ids i
      ((selectLoop_sublist p g us _ 0 0).subset hi)

/-- When at least one safe point exists, at least one marker is placed. -/
theorem insertionPts_ne_nil (tok : Tok) (ids : List Nat) (p : ℚ) (g : Nat)
    (us : Nat → Nat) (fb : Nat) (hsp : safePoints tok ids ≠ []) :
    insertionPts tok ids p g us fb ≠ [] := by
  rw [insertionPts]
  split
  · simp
  · next hc =>
    rw [not_and_or] at hc
    rcases hc with hc | hc
    · exact hc
    · exact absurd hsp (by simpa using hc)

/-- Monotonicity of the spacing invariant in the starting bound. -/
theorem spacedFrom_mono (g : Nat) (b1 gap1 b2 gap2 : Nat)
    (h : b1 + (g - gap1) ≤ b2 + (g - gap2)) :
    ∀ l, spacedFrom g b2 gap2 l → spacedFrom g b1 gap1 l := by
  intro l
  cases l with
  | nil => intro _; trivial
  | cons q qs =>
    intro hsp
    exact ⟨le_trans h hsp.1, hsp.2⟩

/-- The probabilistic loop respects the spacing invariant: at least
`minGap` candidate points are skipped before the first acceptance and
between any two consecutive acceptances. -/
theorem selectLoop_spaced (p : ℚ) (g : Nat) (us : Nat → Nat) :
    ∀ (pts : List Nat) (b gap j : Nat), pts.Pairwise (· < ·) →
      (∀ q ∈ pts, b ≤ q) →
      spacedFrom g b gap (selectLoop p g us pts gap j) := by
  intro pts
  induction pts with
  | nil => intro b gap j _ _; trivial
  | cons pt rest ih =>
    intro b gap j hpw hb
    rw [List.pairwise_cons] at hpw
    obtain ⟨hlt, hpw⟩ := hpw
    have hbpt : b ≤ pt := hb pt (by simp)
    rw [selectLoop]
    split
    · split
      · refine ⟨by omega, ?_⟩
        exact ih (pt + 1) 0 (j + 1) hpw (fun q hq => hlt q hq)
      · refine spacedFrom_mono g b gap (pt + 1) (gap + 1) (by omega) _
          (ih (pt + 1) (gap + 1) (j + 1) hpw (fun q hq => hlt q hq))
    · refine spacedFrom_mono g b gap (pt + 1) (gap + 1) (by omega) _
        (ih (pt + 1) (gap + 1) j hpw (fun q hq => hlt q hq))

/-- From the spacing invariant, all inter-marker token spans are at least
`minGap`. -/
theorem gapsOf_ge_of_spaced (g : Nat) :
    ∀ (l : List Nat) (b last : Nat), spacedFrom g b 0 l → last < b →
      ∀ x ∈ gapsOf last l, g ≤ x := by
  intro l
  induction l with
  | nil => intro b last _ _ x hx; simp [gapsOf] at hx
  | cons q qs ih =>
    intro b last hsp hlb x hx
    rw [gapsOf] at hx
    simp only [List.mem_cons] at hx
    rcases hx with hx | hx
    · subst hx
      have := hsp.1
      omega
    · exact ih (q + 1) q hsp.2 (by omega) x hx

/-- A strictly increasing list bounded below grows at least by index. -/
theorem get_ge_of_pairwise :
    ∀ (l : List Nat) (b : Nat), l.Pairwise (· < ·) → (∀ x ∈ l, b ≤ x) →
      ∀ (i : Nat) (h : i < l.length), b + i ≤ l[i] := by
  intro l
  induction l with
  | nil => intro b _ _ i h; simp at h
  | cons q qs ih =>
    intro b hpw hb i h
    rw [List.pairwise_cons] at hpw
    cases i with
    | zero => simpa using hb q (by simp)
    | succ n =>
      have hq : b ≤ q := hb q (by simp)
      have := ih (q + 1) hpw.2 (fun x hx => hpw.1 x hx) n (by
        simp only [List.length_cons] at h
        omega)
      simp only [List.getElem_cons_succ]
      omega

/-! ### C1: guaranteed marking -/

/-- C1 (amended).  For input with more than one token *for which at least
one safe insertion point exists*, a concatenatively decoding tokenizer
that round-trips the input, and any `p` and `minGap`, the non-sandwiched
result differs from the input: at least one marker is inserted (by the loop
or by the fallback). -/
theorem guaranteed_marking (cfg : Cfg) (tok : Tok) (T : Str)
    (o : RandOptions) (d : Draws) (r : MarkResult)
    (hdec : ∀ a b, tok.decode (a ++ b) = tok.decode a ++ tok.decode b)
    (hrt : tok.decode (tok.encode T) = T)
    (hN : 1 < (tok.encode T).length)
    (hsp : safePoints tok (tok.encode T) ≠ [])
    (hK : 1 ≤ cfg.minK)
    (hs : o.sandwich = false)
    (hr : randomlyMarkData cfg tok T o d = Except.ok r) :
    r.markedText ≠ T := by
  unfold randomlyMarkData at hr
  cases hgen : genDataMarker cfg o.markerType d with
  | error e => rw [hgen] at hr; cases hr
  | ok m =>
    rw [hgen] at hr
    dsimp only at hr
    rw [if_neg (by omega), hs] at hr
    simp only [Bool.false_eq_true, if_false, Except.ok.injEq] at hr
    subst hr
    dsimp only
    intro heq
    have hm : 1 ≤ m.length :=
      le_trans hK (genDataMarker_minK cfg o.markerType d m hgen)
    have hpw : (0 :: insertionPts tok (tok.encode T) o.p o.minGap d.us d.fb).Pairwise
        (· ≤ ·) := by
      rw [List.pairwise_cons]
      exact ⟨fun q _ => Nat.zero_le q,
        (insertionPts_pairwise tok (tok.encode T) o.p o.minGap d.us d.fb).imp
          le_of_lt⟩
    have hlen := assemble_length tok (tok.encode T) m hdec
      (insertionPts tok (tok.encode T) o.p o.minGap d.us d.fb) 0 hpw
    rw [List.drop_zero, hrt] at hlen
    have hne := insertionPts_ne_nil tok (tok.encode T) o.p o.minGap d.us d.fb hsp
    have hp1 : 1 ≤ (insertionPts tok (tok.encode T) o.p o.minGap d.us d.fb).length :=
      List.length_pos.mpr hne
    have hmul : 1 * 1 ≤
        (insertionPts tok (tok.encode T) o.p o.minGap d.us d.fb).length * m.length :=
      Nat.mul_le_mul hp1 hm
    have := congrArg List.length heq
    rw [hlen] at this
    omega

/-- C1 witness: on `tokW` boundary 1 of `cd` is safe, `p = 0` forces the
fallback, and the output differs from the input. -/
theorem guaranteed_marking_witness :
    1 < (tokW.encode "cd".toList).length ∧ rW1.markedText ≠ "cd".toList :=
  ⟨by decide,
   guaranteed_marking cfgD tokW "cd".toList oW dZero rW1
     (fun a b => by simp [tokW, List.flatMap_append]) (by decide) (by decide)
     (by decide) (by decide) (by decide) (by decide)⟩

/-- C1 counterexample: a tokenizer allowed by the specification's
tokenizer-adapter contract under which the two-token text `ab` has *no*
safe insertion point (its one-token prefix re-encodes differently), so the
guaranteed-insertion fallback is skipped and `randomlyMarkData` returns the
input unchanged even though it round-trips and has more than one token. -/
theorem guaranteed_marking_counterexample :
    tokC1.decode (tokC1.encode "ab".toList) = "ab".toList ∧
    1 < (tokC1.encode "ab".toList).length ∧
    randomlyMarkData cfgD tokC1 "ab".toList ⟨0, 0, false, none⟩ dZero =
      Except.ok ⟨"ab".toList, "0000000".toList⟩ :=
  ⟨by decide, by decide, by decide⟩

/-! ### C2: min-gap law -/

/-- C2 (amended).  Every inter-marker token span except the trailing one is
at least `min(minGap, floor(S/2) + 1)` where `S` is the number of safe
insertion points: the full `minGap` bound holds for all points selected by
the probabilistic loop, but the guaranteed-insertion fallback clamps its
minimum index to `floor(S/2)`, so for `minGap > floor(S/2)` the single
fallback marker can be closer to the start than `minGap` tokens. -/
theorem minGap_spacing (tok : Tok) (T : Str) (p : ℚ) (g : Nat)
    (us : Nat → Nat) (fb : Nat) :
    ∀ x ∈ gapsOf 0 (insertionPts tok (tok.encode T) p g us fb),
      min g ((safePoints tok (tok.encode T)).length / 2 + 1) ≤ x := by
  intro x hx
  rw [insertionPts] at hx
  split at hx
  · next hc =>
    simp only [gapsOf, List.mem_cons, List.not_mem_nil, or_false] at hx
    have hL : 0 < (safePoints tok (tok.encode T)).length :=
      List.length_pos.mpr hc.2
    have hidx := fallbackIdx_lt g (safePoints tok (tok.encode T)).length fb hL
    rw [List.getD_eq_getElem _ _ hidx] at hx
    have hge := get_ge_of_pairwise (safePoints tok (tok.encode T)) 1
      (safePoints_pairwise tok (tok.encode T)) (safePoints_pos tok (tok.encode T))
      (fallbackIdx g (safePoints tok (tok.encode T)).length fb) hidx
    have hmi : min (max g 1) ((safePoints tok (tok.encode T)).length / 2) ≤
        fallbackIdx g (safePoints tok (tok.encode T)).length fb := by
      rw [fallbackIdx]
      omega
    subst hx
    omega
  · have hspc : spacedFrom g 1 0
        (selectLoop p g us (safePoints tok (tok.encode T)) 0 0) :=
      selectLoop_spaced p g us (safePoints tok (tok.encode T)) 1 0 0
        (safePoints_pairwise tok (tok.encode T))
        (safePoints_pos tok (tok.encode T))
    exact le_trans (min_le_left _ _)
      (gapsOf_ge_of_spaced g _ 1 0 hspc (by omega) x hx)

/-- C2 witness: a fallback run where the only span is the single safe
point of `cd`. -/
theorem minGap_spacing_witness :
    (1 : Nat) ∈ gapsOf 0 (insertionPts tokW (tokW.encode "cd".toList) 0 5 usZ 0) ∧
    min 5 ((safePoints tokW (tokW.encode "cd".toList)).length / 2 + 1) ≤ 1 :=
  ⟨by decide, minGap_spacing tokW "cd".toList 0 5 usZ 0 1 (by decide)⟩

/-- C2 counterexample: with `minGap = 100` and `p = 0` on the three-token
text `abc` (two safe points), the fallback inserts the single marker after
token 2, so the non-trailing segment `ab` has 2 tokens, far below
`minGap`. -/
theorem minGap_law_counterexample :
    gapsOf 0 (insertionPts tokC2 (tokC2.encode "abc".toList) 0 100 usZ 0) = [2] ∧
    (tokC2.encode "ab".toList).length = 2 ∧
    randomlyMarkData cfgD tokC2 "abc".toList ⟨0, 100, false, none⟩ dZero =
      Except.ok ⟨"ab0000000c".toList, "0000000".toList⟩ ∧
    ¬ (100 ≤ 2) :=
  ⟨by decide, by decide, by decide, by decide⟩

/-! ### C3: initialization of the gap counter -/

/-- C3 (amended).  The running gap counter starts at 0, not at `minGap`:
for `minGap > 0` the first eligible point is unconditionally skipped before
any acceptance draw is made, and whenever `minGap` is at least the number
of eligible points the probabilistic loop selects nothing at all (only the
fallback can insert). -/
theorem gap_counter_starts_at_zero (p : ℚ) (g : Nat) (us : Nat → Nat)
    (hg : 0 < g) :
    (∀ pt rest j, selectLoop p g us (pt :: rest) 0 j = selectLoop p g us rest 1 j) ∧
    (∀ pts j, pts.length ≤ g → selectLoop p g us pts 0 j = []) := by
  constructor
  · intro pt rest j
    rw [selectLoop, if_neg (by omega)]
  · intro pts j h
    exact selectLoop_nil_of_short p g us pts 0 j (by omega)

/-- C3 witness: skipping the first point with `minGap = 1`, and selecting
nothing when `minGap` bounds the point count. -/
theorem gap_counter_starts_at_zero_witness :
    selectLoop 1 1 usZ [1, 2] 0 0 = selectLoop 1 1 usZ [2] 1 0 ∧
    selectLoop 1 1 usZ [5] 0 0 = [] :=
  ⟨(gap_counter_starts_at_zero 1 1 usZ (by decide)).1 1 [2] 0,
   (gap_counter_starts_at_zero 1 1 usZ (by decide)).2 [5] 0 (by decide)⟩

/-- C3 counterexample: with `p = 1` (the acceptance draw always succeeds)
and `minGap = 1`, the loop selects point 2 but *not* the first eligible
point 1 — the first eligible point is not immediately eligible for
acceptance, because the counter starts at 0 rather than at `minGap`. -/
theorem first_point_skipped_counterexample :
    selectLoop 1 1 usZ [1, 2] 0 0 = [2] ∧
    1 ∉ selectLoop 1 1 usZ [1, 2] 0 0 := by
  have ha : accept 1 (usZ 0) = true := by
    rw [accept]
    norm_num [usZ]
  have hsel : selectLoop 1 1 usZ [1, 2] 0 0 = [2] := by
    simp [selectLoop, ha]
  exact ⟨hsel, by rw [hsel]; decide⟩

/-! ### C4: non-marker content -/

/-- C4.  For a concatenatively decoding tokenizer that round-trips the
input (as `cl100k_base`'s byte-level decoder does), the non-sandwiched
result is the input's segments interleaved with marker copies, and the
segments concatenate back to exactly the input: removing the markers
reconstructs the original text, and no split point alters the
reconstruction. -/
theorem nonmarker_content (cfg : Cfg) (tok : Tok) (T : Str)
    (o : RandOptions) (d : Draws) (r : MarkResult)
    (hdec : ∀ a b, tok.decode (a ++ b) = tok.decode a ++ tok.decode b)
    (hrt : tok.decode (tok.encode T) = T)
    (hs : o.sandwich = false)
    (hr : randomlyMarkData cfg tok T o d = Except.ok r) :
    ∃ segs : List Str, r.markedText = interleave r.dataMarker segs ∧
      segs.flatten = T := by
  unfold randomlyMarkData at hr
  cases hgen : genDataMarker cfg o.markerType d with
  | error e => rw [hgen] at hr; cases hr
  | ok m =>
    rw [hgen] at hr
    dsimp only at hr
    rw [hs] at hr
    by_cases hb : (tok.encode T).length = 1 ∧ 8 ≤ T.length
    · rw [if_pos hb] at hr
      simp only [Bool.false_eq_true, if_false, Except.ok.injEq] at hr
      subst hr
      refine ⟨[T.take (T.length / 2), T.drop (T.length / 2)], rfl, ?_⟩
      simp
    · rw [if_neg hb] at hr
      simp only [Bool.false_eq_true, if_false, Except.ok.injEq] at hr
      subst hr
      dsimp only
      refine ⟨slicesFrom tok (tok.encode T)
        (insertionPts tok (tok.encode T) o.p o.minGap d.us d.fb) 0,
        assemble_eq_interleave tok (tok.encode T) m _ 0, ?_⟩
      have hpw : (0 :: insertionPts tok (tok.encode T) o.p o.minGap d.us
          d.fb).Pairwise (· ≤ ·) := by
        rw [List.pairwise_cons]
        exact ⟨fun q _ => Nat.zero_le q,
          (insertionPts_pairwise tok (tok.encode T) o.p o.minGap d.us d.fb).imp
            le_of_lt⟩
      rw [slicesFrom_join tok (tok.encode T) hdec _ 0 hpw, List.drop_zero, hrt]

/-- C4 witness: the concrete `tokW` fallback run reassembles to `cd` after
the marker is removed. -/
theorem nonmarker_content_witness :
    ∃ segs : List Str, rW1.markedText = interleave rW1.dataMarker segs ∧
      segs.flatten = "cd".toList :=
  nonmarker_content cfgD tokW "cd".toList oW dZero rW1
    (fun a b => by simp [tokW, List.flatMap_append]) (by decide) (by decide)
    (by decide)

/-! ### C10: a single marker string per call -/

/-- The whitespace segments are never an empty list. -/
theorem wsSegs_ne_nil : ∀ t : Str, wsSegs t ≠ [] := by
  intro t
  cases t with
  | nil => simp [wsSegs]
  | cons c cs =>
    rw [wsSegs]
    split
    · simp
    · split <;> simp

/-- Whitespace replacement is interleaving the whitespace segments with
copies of the marker. -/
theorem replaceWs_eq_interleave (m : Str) :
    ∀ t : Str, replaceWs m t = interleave m (wsSegs t) := by
  intro t
  induction t with
  | nil => rfl
  | cons c cs ih =>
    rw [replaceWs, wsSegs]
    split
    · rw [interleave_cons m [] (wsSegs cs) (wsSegs_ne_nil cs), ih]
      simp
    · cases hcs : wsSegs cs with
      | nil => exact absurd hcs (wsSegs_ne_nil cs)
      | cons s rest =>
        rw [hcs] at ih
        cases rest with
        | nil =>
          rw [ih]
          simp [interleave]
        | cons t2 ts =>
          rw [interleave_cons m (c :: s) (t2 :: ts) (by simp), ih,
            interleave_cons m s (t2 :: ts) (by simp)]
          simp

/-- C10.  Within one call, `markData` and `randomlyMarkData` place only
copies of the one marker string they return: the marked text equals the
non-marker segments (computable from the input, options and draws alone)
interleaved with the returned `dataMarker`, in both sandwich modes. -/
theorem single_marker_consistency (cfg : Cfg) (d : Draws) :
    (∀ (T : Str) (o : MarkOptions) (r : MarkResult),
      markData cfg T o d = Except.ok r →
        r.markedText = interleave r.dataMarker (markSegs T o)) ∧
    (∀ (tok : Tok) (T : Str) (o : RandOptions) (r : MarkResult),
      randomlyMarkData cfg tok T o d = Except.ok r →
        r.markedText = interleave r.dataMarker (randSegs tok T o d)) := by
  constructor
  · intro T o r hr
    unfold markData at hr
    cases hgen : genDataMarker cfg o.markerType d with
    | error e => rw [hgen] at hr; cases hr
    | ok m =>
      rw [hgen] at hr
      dsimp only at hr
      simp only [Except.ok.injEq] at hr
      subst hr
      rw [markSegs]
      cases hsw : o.sandwich
      · simp only [Bool.false_eq_true, if_false]
        exact replaceWs_eq_interleave m T
      · simp only [if_true]
        rw [interleave_sandwich m (wsSegs T) (wsSegs_ne_nil T),
          ← replaceWs_eq_interleave m T]
  · intro tok T o r hr
    unfold randomlyMarkData at hr
    cases hgen : genDataMarker cfg o.markerType d with
    | error e => rw [hgen] at hr; cases hr
    | ok m =>
      rw [hgen] at hr
      dsimp only at hr
      rw [randSegs]
      dsimp only
      by_cases hb : (tok.encode T).length = 1 ∧ 8 ≤ T.length
      · rw [if_pos hb] at hr ⊢
        simp only [Except.ok.injEq] at hr
        subst hr
        cases hsw : o.sandwich <;>
          simp [hsw, interleave, List.append_assoc]
      · rw [if_neg hb] at hr ⊢
        simp only [Except.ok.injEq] at hr
        subst hr
        dsimp only
        cases hsw : o.sandwich
        · simp only [hsw, Bool.false_eq_true, if_false]
          exact assemble_eq_interleave tok (tok.encode T) m _ 0
        · simp only [hsw, if_true]
          rw [interleave_sandwich m _
              (slicesFrom_ne_nil tok (tok.encode T) _ 0),
            ← assemble_eq_interleave tok (tok.encode T) m _ 0]

/-- C10 witness: concrete sandwiched `markData` and non-sandwiched
`randomlyMarkData` runs, each reassembled from its own returned marker. -/
theorem single_marker_consistency_witness :
    rM.markedText = interleave rM.dataMarker (markSegs "a b".toList oT) ∧
    rW1.markedText = interleave rW1.dataMarker (randSegs tokW "cd".toList oW dZero) :=
  ⟨(single_marker_consistency cfgD dZero).1 "a b".toList oT rM (by decide),
   (single_marker_consistency cfgD dZero).2 tokW "cd".toList oW rW1 (by decide)⟩

/-! ### C7: Base64 round trip -/

/-- Every Unicode scalar value is below 0x110000. -/
theorem char_toNat_lt (c : Char) : c.toNat < 1114112 := by
  rcases c.valid with h | ⟨_, h2⟩
  · have := @UInt32.toNat_lt_of_lt c.val 0xd800 (by norm_num) h
    simp only [Char.toNat]
    omega
  · have := @UInt32.toNat_lt_of_lt c.val 0x110000 (by norm_num) h2
    simpa [Char.toNat] using this

/-- UTF-8 encoding produces bytes. -/
theorem utf8EncodeChar_lt (c : Char) : ∀ b ∈ utf8EncodeChar c, b < 256 := by
  have hv := char_toNat_lt c
  intro b hb
  rw [utf8EncodeChar] at hb
  split at hb
  · simp only [List.mem_singleton] at hb
    omega
  · split at hb
    · simp only [List.mem_cons, List.not_mem_nil, or_false] at hb
      rcases hb with hb | hb <;> omega
    · split at hb
      · simp only [List.mem_cons, List.not_mem_nil, or_false] at hb
        rcases hb with hb | hb | hb <;> omega
      · simp only [List.mem_cons, List.not_mem_nil, or_false] at hb
        rcases hb with hb | hb | hb | hb <;> omega

/-- The whole UTF-8 byte sequence consists of bytes. -/
theorem utf8Encode_lt : ∀ s : Str, ∀ b ∈ utf8Encode s, b < 256 := by
  intro s
  induction s with
  | nil => intro b hb; simp [utf8Encode] at hb
  | cons c cs ih =>
    intro b hb
    rw [utf8Encode, List.mem_append] at hb
    rcases hb with hb | hb
    · exact utf8EncodeChar_lt c b hb
    · exact ih b hb

/-- The Base64 alphabet map is inverted by `b64Inv` on sextet values. -/
theorem b64Inv_b64Char : ∀ n < 64, b64Inv (b64Char n) = n := by decide

/-- No sextet value maps to the padding character. -/
theorem b64Char_ne_pad : ∀ n < 64, b64Char n ≠ '=' := by decide

/-- Base64 decoding inverts Base64 encoding on byte sequences. -/
theorem base64_rt : ∀ bs : List Nat, (∀ b ∈ bs, b < 256) →
    base64Decode (base64Encode bs) = bs
  | [], _ => rfl
  | [b0], h => by
    have hb0 : b0 < 256 := h b0 (by simp)
    rw [base64Encode, base64Decode, if_pos rfl,
      b64Inv_b64Char (b0 / 4) (by omega), b64Inv_b64Char (b0 % 4 * 16) (by omega)]
    simp only [List.cons.injEq, and_true]
    omega
  | [b0, b1], h => by
    have hb0 : b0 < 256 := h b0 (by simp)
    have hb1 : b1 < 256 := h b1 (by simp)
    rw [base64Encode, base64Decode,
      if_neg (b64Char_ne_pad (b1 % 16 * 4) (by omega)), if_pos rfl,
      b64Inv_b64Char (b0 / 4) (by omega),
      b64Inv_b64Char (b0 % 4 * 16 + b1 / 16) (by omega),
      b64Inv_b64Char (b1 % 16 * 4) (by omega)]
    simp only [List.cons.injEq, and_true]
    constructor <;> omega
  | b0 :: b1 :: b2 :: rest, h => by
    have hb0 : b0 < 256 := h b0 (by simp)
    have hb1 : b1 < 256 := h b1 (by simp)
    have hb2 : b2 < 256 := h b2 (by simp)
    rw [base64Encode, base64Decode,
      if_neg (b64Char_ne_pad (b1 % 16 * 4 + b2 / 64) (by omega)),
      if_neg (b64Char_ne_pad (b2 % 64) (by omega)),
      b64Inv_b64Char (b0 / 4) (by omega),
      b64Inv_b64Char (b0 % 4 * 16 + b1 / 16) (by omega),
      b64Inv_b64Char (b1 % 16 * 4 + b2 / 64) (by omega),
      b64Inv_b64Char (b2 % 64) (by omega),
      base64_rt rest (fun b hb => h b (by simp [hb]))]
    simp only [List.cons.injEq, and_true]
    refine ⟨by omega, by omega, by omega⟩

/-- UTF-8 decoding peels one encoded scalar value off the front. -/
theorem utf8DecodeChar (c : Char) (rest : List Nat) :
    utf8Decode (utf8EncodeChar c ++ rest) = c :: utf8Decode rest := by
  have hv := char_toNat_lt c
  rw [utf8EncodeChar]
  by_cases h1 : c.toNat < 0x80
  · rw [if_pos h1, List.singleton_append, utf8Decode, if_pos h1,
      Char.ofNat_toNat]
  · rw [if_neg h1]
    by_cases h2 : c.toNat < 0x800
    · rw [if_pos h2]
      simp only [List.cons_append, List.nil_append]
      rw [utf8Decode, if_neg (by omega), if_pos (by omega),
        if_neg (by simp only [List.length_cons]; omega)]
      simp only [List.headD_cons, List.drop_succ_cons, List.drop_zero]
      have hn : (0xc0 + c.toNat / 64 - 0xc0) * 64 + (0x80 + c.toNat % 64 - 0x80)
          = c.toNat := by omega
      rw [hn, Char.ofNat_toNat]
    · rw [if_neg h2]
      by_cases h3 : c.toNat < 0x10000
      · rw [if_pos h3]
        simp only [List.cons_append, List.nil_append]
        rw [utf8Decode, if_neg (by omega), if_neg (by omega), if_pos (by omega),
          if_neg (by simp only [List.length_cons]; omega)]
        simp only [List.headD_cons, List.drop_succ_cons, List.drop_zero]
        have hn : (0xe0 + c.toNat / 4096 - 0xe0) * 4096 +
            (0x80 + c.toNat / 64 % 64 - 0x80) * 64 +
            (0x80 + c.toNat % 64 - 0x80) = c.toNat := by omega
        rw [hn, Char.ofNat_toNat]
      · rw [if_neg h3]
        simp only [List.cons_append, List.nil_append]
        rw [utf8Decode, if_neg (by omega), if_neg (by omega), if_neg (by omega),
          if_neg (by simp only [List.length_cons]; omega)]
        simp only [List.headD_cons, List.drop_succ_cons, List.drop_zero]
        have hn : (0xf0 + c.toNat / 262144 - 0xf0) * 262144 +
            (0x80 + c.toNat / 4096 % 64 - 0x80) * 4096 +
            (0x80 + c.toNat / 64 % 64 - 0x80) * 64 +
            (0x80 + c.toNat % 64 - 0x80) = c.toNat := by omega
        rw [hn, Char.ofNat_toNat]

/-- UTF-8 decoding inverts UTF-8 encoding. -/
theorem utf8_rt : ∀ s : Str, utf8Decode (utf8Encode s) = s := by
  intro s
  induction s with
  | nil => rw [utf8Encode, utf8Decode]
  | cons c cs ih => rw [utf8Encode, utf8DecodeChar, ih]

/-- C7.  Base64-decoding the `markedText` of `base64EncodeData` and
interpreting the bytes as UTF-8 yields exactly the input text, for every
text including multi-byte and emoji content: the transcoding is fully
reversible. -/
theorem base64_roundtrip (T : Str) :
    utf8Decode (base64Decode ((base64EncodeData T).markedText)) = T := by
  show utf8Decode (base64Decode (base64Encode (utf8Encode T))) = T
  rw [base64_rt (utf8Encode T) (utf8Encode_lt T), utf8_rt]

end Spotlighting
